import Mathlib

/-!
Verification of the funding-arbitrage dashboard's core logic: a shallow
embedding of `src/app/api/funding-rates/route.ts` (matrix construction,
best/worst-cell annotation, arbitrage-opportunity derivation, exchange
display names, response assembly) over exact rational arithmetic, with
theorems settling the specification's claims about it.

JS `number` arithmetic is idealised as `ℚ`; timestamps (milliseconds since
epoch) are likewise `ℚ`.  JS string-keyed objects whose keys are only ever
read through `obj[k]` / `obj?.[k]` are embedded as `String → Option _`
functions; objects built once by mapping over a key list are embedded as
association lists.
-/

/-- A cell of the funding matrix (`{ apr, rawPercent, isBest, isWorst }` in
the route).  The route creates cells without the two flags and
`findBestWorstCells` later assigns them; pre-annotation cells carry
`false` here. -/
structure RateCell where
  apr : ℚ
  rawPercent : ℚ
  isBest : Bool
  isWorst : Bool
deriving DecidableEq

/-- The route helper `calculateAPR(rateSum, days)`:
`rateSum * (365 / days) * 100`. -/
def calculateAPR (rateSum days : ℚ) : ℚ :=
  rateSum * (365 / days) * 100

/-- The route helper `rateSumToPercent(rateSum)`: `rateSum * 100`. -/
def rateSumToPercent (rateSum : ℚ) : ℚ :=
  rateSum * 100

/-- JS `Math.abs` on exact rationals. -/
def mathAbs (q : ℚ) : ℚ :=
  if q < 0 then -q else q

/-- The route helper `getExchangeDisplayName(exchange)`: a key starting with
`hl-` maps to `HL-` followed by the rest (`substring(3)`); otherwise the
first character is upper-cased (`charAt(0).toUpperCase() + slice(1)`,
which on the empty string yields the empty string). -/
def getExchangeDisplayName (exchange : String) : String :=
  match exchange.data with
  | 'h' :: 'l' :: '-' :: rest => String.mk ('H' :: 'L' :: '-' :: rest)
  | c :: cs => String.mk (c.toUpper :: cs)
  | [] => ""

/-- One row of the `funding_rates` table, as read by `getFundingRatesSum`. -/
structure FundingRateRow where
  exchange : String
  symbol : String
  fundingTime : ℚ
  fundingRate : ℚ
deriving DecidableEq

/-- The route helper `getFundingRatesSum(exchange, symbol, startTime, endTime)`:
the query of the
table summed up: the sum of `funding_rate` over the rows matching the
exchange, the symbol and the closed time window. -/
def getFundingRatesSum (db : List FundingRateRow) (exchange symbol : String)
    (startTime endTime : ℚ) : ℚ :=
  ((db.filter (fun row =>
      row.exchange = exchange ∧ row.symbol = symbol ∧
      startTime ≤ row.fundingTime ∧ row.fundingTime ≤ endTime)).map
    (fun row => row.fundingRate)).sum

/-- Window resolution inside `processSymbolData`: if reference timestamps
exist the window snaps to the first/last of them, otherwise it is the
nominal `[endTime - days·24h, endTime]` range. -/
def resolveWindow (refTimestamps : List ℚ) (endTime days : ℚ) : ℚ × ℚ :=
  let startTime := endTime - days * 86400000
  match refTimestamps with
  | [] => (startTime, endTime)
  | t :: ts => (t, List.getLastD ts t)

/-- The route function `processSymbolData(symbol, exchanges, endTime, days)`,
with the data source and the reference-timestamp lookup passed in as
values.  For every exchange of the list it stores a cell computed from the
summed rate over the resolved window (`actualDays` clamped to at least
one day). -/
def processSymbolData (db : List FundingRateRow) (symbol : String)
    (exchanges : List String) (refTimestamps : List ℚ)
    (endTime days : ℚ) : List (String × RateCell) :=
  let w := resolveWindow refTimestamps endTime days
  let actualDays := max 1 ((w.2 - w.1) / 86400000)
  exchanges.map (fun exchange =>
    let rateSum := getFundingRatesSum db exchange symbol w.1 w.2
    (exchange,
      { apr := calculateAPR rateSum actualDays
      , rawPercent := rateSumToPercent rateSum
      , isBest := false
      , isWorst := false }))

/-- Claim C8 — `calculateAPR` and `rateSumToPercent` satisfy
`apr = rawPercent * (365 / actualDays)` for every `actualDays ≥ 1`, and
both share their sign (positive, negative, zero) with the rate sum. -/
theorem calculateAPR_rawPercent_relation (rateSum actualDays : ℚ)
    (hd : 1 ≤ actualDays) :
    calculateAPR rateSum actualDays
        = rateSumToPercent rateSum * (365 / actualDays)
      ∧ (0 < rateSum ↔ 0 < calculateAPR rateSum actualDays)
      ∧ (0 < rateSum ↔ 0 < rateSumToPercent rateSum)
      ∧ (rateSum < 0 ↔ calculateAPR rateSum actualDays < 0)
      ∧ (rateSum < 0 ↔ rateSumToPercent rateSum < 0)
      ∧ (rateSum = 0 ↔ calculateAPR rateSum actualDays = 0)
      ∧ (rateSum = 0 ↔ rateSumToPercent rateSum = 0) := by
  have hd0 : (0:ℚ) < actualDays := lt_of_lt_of_le one_pos hd
  have hfac : (0:ℚ) < 365 / actualDays * 100 := by positivity
  have hkey : ∀ r : ℚ, calculateAPR r actualDays = r * (365 / actualDays * 100) := by
    intro r; unfold calculateAPR; ring
  refine ⟨?_, ?_, ?_, ?_, ?_, ?_, ?_⟩
  · unfold calculateAPR rateSumToPercent; ring
  · rw [hkey]
    constructor
    · intro h; exact mul_pos h hfac
    · intro h; by_contra hle
      push_neg at hle
      nlinarith
  · unfold rateSumToPercent
    constructor
    · intro h; nlinarith
    · intro h; nlinarith
  · rw [hkey]
    constructor
    · intro h; exact mul_neg_of_neg_of_pos h hfac
    · intro h; by_contra hle
      push_neg at hle
      nlinarith
  · unfold rateSumToPercent
    constructor
    · intro h; nlinarith
    · intro h; nlinarith
  · rw [hkey]
    constructor
    · intro h; rw [h]; ring
    · intro h
      rcases mul_eq_zero.mp h with h' | h'
      · exact h'
      · exact absurd h' (ne_of_gt hfac)
  · unfold rateSumToPercent
    constructor
    · intro h; rw [h]; ring
    · intro h
      rcases mul_eq_zero.mp h with h' | h'
      · exact h'
      · norm_num at h'

/-- Witness for C8 at `rateSum = 1`, `actualDays = 2`. -/
theorem calculateAPR_rawPercent_relation_witness :
    calculateAPR 1 2 = rateSumToPercent 1 * (365 / 2)
      ∧ (0 < (1:ℚ) ↔ 0 < calculateAPR 1 2)
      ∧ (0 < (1:ℚ) ↔ 0 < rateSumToPercent 1)
      ∧ ((1:ℚ) < 0 ↔ calculateAPR 1 2 < 0)
      ∧ ((1:ℚ) < 0 ↔ rateSumToPercent 1 < 0)
      ∧ ((1:ℚ) = 0 ↔ calculateAPR 1 2 = 0)
      ∧ ((1:ℚ) = 0 ↔ rateSumToPercent 1 = 0) :=
  calculateAPR_rawPercent_relation 1 2 (by norm_num)

lemma lookup_map_self {β : Type} (f : String → β) (l : List String) (e : String)
    (he : e ∈ l) : (l.map (fun x => (x, f x))).lookup e = some (f e) := by
  induction l with
  | nil => cases he
  | cons x xs ih =>
    rcases List.mem_cons.mp he with h | h
    · subst h
      simp [List.lookup]
    · by_cases hx : e = x
      · subst hx
        simp [List.lookup]
      · have hbe : (e == x) = false := beq_eq_false_iff_ne.mpr hx
        rw [List.map_cons, List.lookup_cons, hbe]
        exact ih h

/-- Claim C1 (amended) — `processSymbolData` stores an entry for *every*
exchange of the queried list; a (symbol, exchange) pair with no
observations in the resolved window receives the cell
`{apr := 0, rawPercent := 0}`, not an absent cell. -/
theorem processSymbolData_entry_for_every_exchange
    (db : List FundingRateRow) (symbol : String) (exchanges : List String)
    (refTimestamps : List ℚ) (endTime days : ℚ) (e : String)
    (he : e ∈ exchanges) :
    ((processSymbolData db symbol exchanges refTimestamps endTime days).lookup e).isSome
      ∧ ((∀ row ∈ db, row.exchange = e → row.symbol = symbol →
            ¬((resolveWindow refTimestamps endTime days).1 ≤ row.fundingTime ∧
              row.fundingTime ≤ (resolveWindow refTimestamps endTime days).2)) →
          (processSymbolData db symbol exchanges refTimestamps endTime days).lookup e
            = some ⟨0, 0, false, false⟩) := by
  have hlk := lookup_map_self
    (fun exchange =>
      let rateSum := getFundingRatesSum db exchange symbol
        (resolveWindow refTimestamps endTime days).1
        (resolveWindow refTimestamps endTime days).2
      ({ apr := calculateAPR rateSum
            (max 1 (((resolveWindow refTimestamps endTime days).2 -
              (resolveWindow refTimestamps endTime days).1) / 86400000))
       , rawPercent := rateSumToPercent rateSum
       , isBest := false
       , isWorst := false } : RateCell))
    exchanges e he
  have hpsd : (processSymbolData db symbol exchanges refTimestamps endTime days).lookup e
      = some (let rateSum := getFundingRatesSum db e symbol
                (resolveWindow refTimestamps endTime days).1
                (resolveWindow refTimestamps endTime days).2
              ({ apr := calculateAPR rateSum
                    (max 1 (((resolveWindow refTimestamps endTime days).2 -
                      (resolveWindow refTimestamps endTime days).1) / 86400000))
               , rawPercent := rateSumToPercent rateSum
               , isBest := false
               , isWorst := false } : RateCell)) := by
    unfold processSymbolData
    exact hlk
  constructor
  · rw [hpsd]; rfl
  · intro hnone
    have hfilter : db.filter (fun row =>
        row.exchange = e ∧ row.symbol = symbol ∧
        (resolveWindow refTimestamps endTime days).1 ≤ row.fundingTime ∧
        row.fundingTime ≤ (resolveWindow refTimestamps endTime days).2) = [] := by
      rw [List.filter_eq_nil_iff]
      intro row hrow
      simp only [decide_eq_true_eq, not_and]
      intro hex hsym
      exact fun hge hle => hnone row hrow hex hsym ⟨hge, hle⟩
    have hsum : getFundingRatesSum db e symbol
        (resolveWindow refTimestamps endTime days).1
        (resolveWindow refTimestamps endTime days).2 = 0 := by
      unfold getFundingRatesSum
      rw [hfilter]
      rfl
    rw [hpsd]
    simp only [hsum]
    congr 1
    unfold calculateAPR rateSumToPercent
    congr 1 <;> ring

/-- Counterexample to claim C1 as stated: over an *empty* data source —
which contains no observation at all for the pair (BTC, binance) — the
row built by `processSymbolData` still contains an entry for `binance`,
holding the zero-valued cell `{apr := 0, rawPercent := 0}` rather than
being absent. -/
theorem processSymbolData_zero_cell_counterexample :
    (processSymbolData [] "BTC" ["binance"] [] 604800000 7).lookup "binance"
      = some ⟨0, 0, false, false⟩ := by
  simp only [processSymbolData, getFundingRatesSum, List.filter_nil, List.map_nil,
    List.sum_nil, List.map_cons, List.lookup]
  norm_num [calculateAPR, rateSumToPercent]

/-- Witness for the amended C1: a data source holding one observation for
(BTC, bybit) yields, for the exchange `binance` (present in the queried
list but with no observations), an entry with the zero cell. -/
theorem processSymbolData_entry_for_every_exchange_witness :
    ((processSymbolData [⟨"bybit", "BTC", 1000, 3/1000⟩] "BTC"
        ["binance", "bybit"] [] 604800000 7).lookup "binance").isSome
      ∧ (processSymbolData [⟨"bybit", "BTC", 1000, 3/1000⟩] "BTC"
          ["binance", "bybit"] [] 604800000 7).lookup "binance"
          = some ⟨0, 0, false, false⟩ := by
  have h := processSymbolData_entry_for_every_exchange
    [⟨"bybit", "BTC", 1000, 3/1000⟩] "BTC" ["binance", "bybit"] []
    604800000 7 "binance" (by decide)
  refine ⟨h.1, h.2 ?_⟩
  intro row hrow hex _
  rcases List.mem_singleton.mp hrow with rfl
  exact absurd hex (by decide)

/-- The funding matrix: symbol → exchange → cell.  The route only ever
reads it through `matrix[symbol]?.[exchange]` (or guards emptiness first),
so an absent row and a row with no cells are observationally the same and
the two JS dictionary levels are embedded as one curried function. -/
abbrev FundingMatrix := String → String → Option RateCell

/-- The composite key `` `${symbol}-${exchange}` `` used by
`findBestWorstCells` to record extreme cells. -/
def cellKey (symbol exchange : String) : String :=
  symbol ++ "-" ++ exchange

/-- The accumulator of the first pass of `findBestWorstCells`:
`bestAPR`/`worstAPR` start at `-Infinity`/`Infinity` in the route, which
no finite apr ever equals; `none` plays that role here. -/
structure ScanState where
  bestAPR : Option ℚ
  worstAPR : Option ℚ
  bestCells : List String
  worstCells : List String

def scanInit : ScanState := ⟨none, none, [], []⟩

/-- One best-side update of the first pass: `if (apr > bestAPR)` reset the
list to this key, `else if (apr === bestAPR)` push the key, else keep. -/
def bestUpdate (cur : Option ℚ) (cells : List String) (apr : ℚ) (key : String) :
    Option ℚ × List String :=
  match cur with
  | none => (some apr, [key])
  | some b =>
    if b < apr then (some apr, [key])
    else if apr = b then (some b, cells ++ [key])
    else (some b, cells)

/-- One worst-side update of the first pass, mirror image of `bestUpdate`. -/
def worstUpdate (cur : Option ℚ) (cells : List String) (apr : ℚ) (key : String) :
    Option ℚ × List String :=
  match cur with
  | none => (some apr, [key])
  | some w =>
    if apr < w then (some apr, [key])
    else if apr = w then (some w, cells ++ [key])
    else (some w, cells)

/-- Processing one present cell in the first pass of `findBestWorstCells`. -/
def scanStep (st : ScanState) (entry : String × String × RateCell) : ScanState :=
  let key := cellKey entry.1 entry.2.1
  let b := bestUpdate st.bestAPR st.bestCells entry.2.2.apr key
  let w := worstUpdate st.worstAPR st.worstCells entry.2.2.apr key
  ⟨b.1, w.1, b.2, w.2⟩

/-- The cells visited by both passes of `findBestWorstCells`: the route
iterates symbols in order, exchanges in order, and skips absent cells. -/
def presentCells (matrix : FundingMatrix) (symbols exchanges : List String) :
    List (String × String × RateCell) :=
  (List.product symbols exchanges).filterMap
    (fun p => (matrix p.1 p.2).map (fun c => (p.1, p.2, c)))

/-- The first pass of `findBestWorstCells`. -/
def scanCells (matrix : FundingMatrix) (symbols exchanges : List String) : ScanState :=
  (presentCells matrix symbols exchanges).foldl scanStep scanInit

/-- The per-cell assignment of the second pass:
`matrix[symbol][exchange].isBest = bestCells.includes(cellKey)` and
likewise for `isWorst`; `apr` and `rawPercent` are untouched. -/
def stampCell (st : ScanState) (symbol exchange : String) (c : RateCell) : RateCell :=
  { c with isBest := st.bestCells.contains (cellKey symbol exchange)
         , isWorst := st.worstCells.contains (cellKey symbol exchange) }

/-- Pointwise functional update of one matrix cell, guarded — as in the
route — by the cell's presence (`if (matrix[symbol]?.[exchange])`). -/
def updateCell (m : FundingMatrix) (symbol exchange : String)
    (f : RateCell → RateCell) : FundingMatrix :=
  fun s e => if s = symbol ∧ e = exchange then (m s e).map f else m s e

/-- The second pass of `findBestWorstCells` over a list of
(symbol, exchange) positions. -/
def stampPass (st : ScanState) (m : FundingMatrix)
    (ps : List (String × String)) : FundingMatrix :=
  ps.foldl (fun acc p => updateCell acc p.1 p.2 (stampCell st p.1 p.2)) m

/-- The route function `findBestWorstCells(matrix, symbols, exchanges)`: pass 1
scans every present cell for the global extreme aprs, pass 2 stamps
`isBest`/`isWorst` on every present cell.  The route mutates the matrix in
place; here the stamped matrix is returned. -/
def findBestWorstCells (matrix : FundingMatrix) (symbols exchanges : List String) :
    FundingMatrix :=
  let st := scanCells matrix symbols exchanges
  stampPass st matrix (List.product symbols exchanges)

lemma stampCell_idem (st : ScanState) (s e : String) (c : RateCell) :
    stampCell st s e (stampCell st s e c) = stampCell st s e c := rfl

lemma stampCell_apr (st : ScanState) (s e : String) (c : RateCell) :
    (stampCell st s e c).apr = c.apr := rfl

lemma stampCell_rawPercent (st : ScanState) (s e : String) (c : RateCell) :
    (stampCell st s e c).rawPercent = c.rawPercent := rfl

lemma stampPass_apply (st : ScanState) (ps : List (String × String))
    (m : FundingMatrix) (s e : String) :
    stampPass st m ps s e
      = if (s, e) ∈ ps then (m s e).map (stampCell st s e) else m s e := by
  induction ps generalizing m with
  | nil => simp [stampPass]
  | cons p ps ih =>
    have hstep : stampPass st m (p :: ps)
        = stampPass st (updateCell m p.1 p.2 (stampCell st p.1 p.2)) ps := rfl
    rw [hstep, ih]
    by_cases hmem : (s, e) ∈ ps
    · rw [if_pos hmem, if_pos (List.mem_cons_of_mem p hmem)]
      by_cases hp : s = p.1 ∧ e = p.2
      · simp only [updateCell, if_pos hp, Option.map_map]
        obtain ⟨h1, h2⟩ := hp
        subst h1; subst h2
        have hcomp : stampCell st p.1 p.2 ∘ stampCell st p.1 p.2 = stampCell st p.1 p.2 :=
          funext (fun c => stampCell_idem st p.1 p.2 c)
        rw [hcomp]
      · simp only [updateCell, if_neg hp]
    · rw [if_neg hmem]
      simp only [updateCell]
      by_cases hp : s = p.1 ∧ e = p.2
      · obtain ⟨h1, h2⟩ := hp
        subst h1; subst h2
        rw [if_pos ⟨rfl, rfl⟩, if_pos (List.mem_cons_self _ _)]
      · rw [if_neg hp, if_neg ?_]
        intro hc
        rcases List.mem_cons.mp hc with hc | hc
        · exact hp ⟨congrArg Prod.fst hc, congrArg Prod.snd hc⟩
        · exact hmem hc

lemma mem_presentCells {matrix : FundingMatrix} {symbols exchanges : List String}
    {x : String × String × RateCell} :
    x ∈ presentCells matrix symbols exchanges
      ↔ x.1 ∈ symbols ∧ x.2.1 ∈ exchanges ∧ matrix x.1 x.2.1 = some x.2.2 := by
  unfold presentCells
  rw [List.mem_filterMap]
  constructor
  · rintro ⟨p, hp, hfp⟩
    obtain ⟨c, hc, hx⟩ := Option.map_eq_some'.mp hfp
    obtain ⟨hs, he⟩ := List.mem_product.mp hp
    cases x
    cases hx
    exact ⟨hs, he, hc⟩
  · rintro ⟨hs, he, hc⟩
    exact ⟨(x.1, x.2.1), List.mem_product.mpr ⟨hs, he⟩, by rw [hc]; rfl⟩

lemma scanStep_bestAPR (st : ScanState) (x : String × String × RateCell) :
    (scanStep st x).bestAPR
      = (bestUpdate st.bestAPR st.bestCells x.2.2.apr (cellKey x.1 x.2.1)).1 := rfl

lemma scanStep_bestCells (st : ScanState) (x : String × String × RateCell) :
    (scanStep st x).bestCells
      = (bestUpdate st.bestAPR st.bestCells x.2.2.apr (cellKey x.1 x.2.1)).2 := rfl

lemma scanStep_worstAPR (st : ScanState) (x : String × String × RateCell) :
    (scanStep st x).worstAPR
      = (worstUpdate st.worstAPR st.worstCells x.2.2.apr (cellKey x.1 x.2.1)).1 := rfl

lemma scanStep_worstCells (st : ScanState) (x : String × String × RateCell) :
    (scanStep st x).worstCells
      = (worstUpdate st.worstAPR st.worstCells x.2.2.apr (cellKey x.1 x.2.1)).2 := rfl

lemma scan_best_spec (entries : List (String × String × RateCell)) (hne : entries ≠ []) :
    ∃ b, (entries.foldl scanStep scanInit).bestAPR = some b
      ∧ (∃ x ∈ entries, x.2.2.apr = b)
      ∧ (∀ x ∈ entries, x.2.2.apr ≤ b)
      ∧ (∀ k, k ∈ (entries.foldl scanStep scanInit).bestCells
            ↔ ∃ x ∈ entries, x.2.2.apr = b ∧ cellKey x.1 x.2.1 = k) := by
  induction entries using List.reverseRecOn with
  | nil => exact absurd rfl hne
  | append_singleton xs x ih =>
    rw [List.foldl_append, List.foldl_cons, List.foldl_nil]
    by_cases hxs : xs = []
    · subst hxs
      simp only [List.foldl_nil]
      refine ⟨x.2.2.apr, ?_, ⟨x, by simp, rfl⟩, ?_, ?_⟩
      · rw [scanStep_bestAPR]; rfl
      · intro y hy
        rcases List.mem_singleton.mp (by simpa using hy) with rfl
        exact le_refl _
      · intro k
        rw [scanStep_bestCells]
        show k ∈ [cellKey x.1 x.2.1] ↔ _
        constructor
        · intro hk
          rcases List.mem_singleton.mp hk with rfl
          exact ⟨x, by simp, rfl, rfl⟩
        · rintro ⟨y, hy, _, hyk⟩
          rcases List.mem_singleton.mp (by simpa using hy) with rfl
          rw [← hyk]
          exact List.mem_singleton.mpr rfl
    · obtain ⟨b, hb, ⟨xm, hxm, hxma⟩, hub, hmem⟩ := ih hxs
      have hbA : (scanStep (xs.foldl scanStep scanInit) x).bestAPR
          = (bestUpdate (some b) (xs.foldl scanStep scanInit).bestCells
              x.2.2.apr (cellKey x.1 x.2.1)).1 := by
        rw [scanStep_bestAPR, hb]
      have hbC : (scanStep (xs.foldl scanStep scanInit) x).bestCells
          = (bestUpdate (some b) (xs.foldl scanStep scanInit).bestCells
              x.2.2.apr (cellKey x.1 x.2.1)).2 := by
        rw [scanStep_bestCells, hb]
      rcases lt_trichotomy b x.2.2.apr with hlt | heq | hgt
      · have hbu : bestUpdate (some b) (xs.foldl scanStep scanInit).bestCells
            x.2.2.apr (cellKey x.1 x.2.1)
            = (some x.2.2.apr, [cellKey x.1 x.2.1]) := by
          simp only [bestUpdate]
          rw [if_pos hlt]
        refine ⟨x.2.2.apr, by rw [hbA, hbu], ⟨x, by simp, rfl⟩, ?_, ?_⟩
        · intro y hy
          rcases List.mem_append.mp hy with hy | hy
          · exact le_of_lt (lt_of_le_of_lt (hub y hy) hlt)
          · rcases List.mem_singleton.mp hy with rfl
            exact le_refl _
        · intro k
          rw [hbC, hbu]
          constructor
          · intro hk
            rcases List.mem_singleton.mp hk with rfl
            exact ⟨x, by simp, rfl, rfl⟩
          · rintro ⟨y, hy, hya, hyk⟩
            rcases List.mem_append.mp hy with hy | hy
            · exact absurd hya (ne_of_lt (lt_of_le_of_lt (hub y hy) hlt))
            · rcases List.mem_singleton.mp hy with rfl
              rw [← hyk]
              exact List.mem_singleton.mpr rfl
      · have hbu : bestUpdate (some b) (xs.foldl scanStep scanInit).bestCells
            x.2.2.apr (cellKey x.1 x.2.1)
            = (some b, (xs.foldl scanStep scanInit).bestCells ++ [cellKey x.1 x.2.1]) := by
          simp only [bestUpdate]
          rw [if_neg (heq ▸ lt_irrefl b), if_pos heq.symm]
        refine ⟨b, by rw [hbA, hbu], ⟨xm, List.mem_append_left _ hxm, hxma⟩, ?_, ?_⟩
        · intro y hy
          rcases List.mem_append.mp hy with hy | hy
          · exact hub y hy
          · rcases List.mem_singleton.mp hy with rfl
            exact le_of_eq heq.symm
        · intro k
          rw [hbC, hbu]
          show k ∈ _ ++ [cellKey x.1 x.2.1] ↔ _
          rw [List.mem_append, hmem k]
          constructor
          · rintro (⟨y, hy, hya, hyk⟩ | hk)
            · exact ⟨y, List.mem_append_left _ hy, hya, hyk⟩
            · rcases List.mem_singleton.mp hk with rfl
              exact ⟨x, List.mem_append_right _ (List.mem_singleton.mpr rfl), heq.symm, rfl⟩
          · rintro ⟨y, hy, hya, hyk⟩
            rcases List.mem_append.mp hy with hy | hy
            · exact Or.inl ⟨y, hy, hya, hyk⟩
            · rcases List.mem_singleton.mp hy with rfl
              exact Or.inr (by rw [← hyk]; exact List.mem_singleton.mpr rfl)
      · have hbu : bestUpdate (some b) (xs.foldl scanStep scanInit).bestCells
            x.2.2.apr (cellKey x.1 x.2.1)
            = (some b, (xs.foldl scanStep scanInit).bestCells) := by
          simp only [bestUpdate]
          rw [if_neg (asymm hgt), if_neg (ne_of_lt hgt)]
        refine ⟨b, by rw [hbA, hbu], ⟨xm, List.mem_append_left _ hxm, hxma⟩, ?_, ?_⟩
        · intro y hy
          rcases List.mem_append.mp hy with hy | hy
          · exact hub y hy
          · rcases List.mem_singleton.mp hy with rfl
            exact le_of_lt hgt
        · intro k
          rw [hbC, hbu, hmem k]
          constructor
          · rintro ⟨y, hy, hya, hyk⟩
            exact ⟨y, List.mem_append_left _ hy, hya, hyk⟩
          · rintro ⟨y, hy, hya, hyk⟩
            rcases List.mem_append.mp hy with hy | hy
            · exact ⟨y, hy, hya, hyk⟩
            · rcases List.mem_singleton.mp hy with rfl
              exact absurd hya (ne_of_lt hgt)

lemma scan_worst_spec (entries : List (String × String × RateCell)) (hne : entries ≠ []) :
    ∃ w, (entries.foldl scanStep scanInit).worstAPR = some w
      ∧ (∃ x ∈ entries, x.2.2.apr = w)
      ∧ (∀ x ∈ entries, w ≤ x.2.2.apr)
      ∧ (∀ k, k ∈ (entries.foldl scanStep scanInit).worstCells
            ↔ ∃ x ∈ entries, x.2.2.apr = w ∧ cellKey x.1 x.2.1 = k) := by
  induction entries using List.reverseRecOn with
  | nil => exact absurd rfl hne
  | append_singleton xs x ih =>
    rw [List.foldl_append, List.foldl_cons, List.foldl_nil]
    by_cases hxs : xs = []
    · subst hxs
      simp only [List.foldl_nil]
      refine ⟨x.2.2.apr, ?_, ⟨x, by simp, rfl⟩, ?_, ?_⟩
      · rw [scanStep_worstAPR]; rfl
      · intro y hy
        rcases List.mem_singleton.mp (by simpa using hy) with rfl
        exact le_refl _
      · intro k
        rw [scanStep_worstCells]
        show k ∈ [cellKey x.1 x.2.1] ↔ _
        constructor
        · intro hk
          rcases List.mem_singleton.mp hk with rfl
          exact ⟨x, by simp, rfl, rfl⟩
        · rintro ⟨y, hy, _, hyk⟩
          rcases List.mem_singleton.mp (by simpa using hy) with rfl
          rw [← hyk]
          exact List.mem_singleton.mpr rfl
    · obtain ⟨w, hw, ⟨xm, hxm, hxma⟩, hlb, hmem⟩ := ih hxs
      have hwA : (scanStep (xs.foldl scanStep scanInit) x).worstAPR
          = (worstUpdate (some w) (xs.foldl scanStep scanInit).worstCells
              x.2.2.apr (cellKey x.1 x.2.1)).1 := by
        rw [scanStep_worstAPR, hw]
      have hwC : (scanStep (xs.foldl scanStep scanInit) x).worstCells
          = (worstUpdate (some w) (xs.foldl scanStep scanInit).worstCells
              x.2.2.apr (cellKey x.1 x.2.1)).2 := by
        rw [scanStep_worstCells, hw]
      rcases lt_trichotomy x.2.2.apr w with hlt | heq | hgt
      · have hwu : worstUpdate (some w) (xs.foldl scanStep scanInit).worstCells
            x.2.2.apr (cellKey x.1 x.2.1)
            = (some x.2.2.apr, [cellKey x.1 x.2.1]) := by
          simp only [worstUpdate]
          rw [if_pos hlt]
        refine ⟨x.2.2.apr, by rw [hwA, hwu], ⟨x, by simp, rfl⟩, ?_, ?_⟩
        · intro y hy
          rcases List.mem_append.mp hy with hy | hy
          · exact le_of_lt (lt_of_lt_of_le hlt (hlb y hy))
          · rcases List.mem_singleton.mp hy with rfl
            exact le_refl _
        · intro k
          rw [hwC, hwu]
          constructor
          · intro hk
            rcases List.mem_singleton.mp hk with rfl
            exact ⟨x, by simp, rfl, rfl⟩
          · rintro ⟨y, hy, hya, hyk⟩
            rcases List.mem_append.mp hy with hy | hy
            · exact absurd hya (ne_of_gt (lt_of_lt_of_le hlt (hlb y hy)))
            · rcases List.mem_singleton.mp hy with rfl
              rw [← hyk]
              exact List.mem_singleton.mpr rfl
      · have hwu : worstUpdate (some w) (xs.foldl scanStep scanInit).worstCells
            x.2.2.apr (cellKey x.1 x.2.1)
            = (some w, (xs.foldl scanStep scanInit).worstCells ++ [cellKey x.1 x.2.1]) := by
          simp only [worstUpdate]
          rw [if_neg (heq ▸ lt_irrefl _), if_pos heq]
        refine ⟨w, by rw [hwA, hwu], ⟨xm, List.mem_append_left _ hxm, hxma⟩, ?_, ?_⟩
        · intro y hy
          rcases List.mem_append.mp hy with hy | hy
          · exact hlb y hy
          · rcases List.mem_singleton.mp hy with rfl
            exact le_of_eq heq.symm
        · intro k
          rw [hwC, hwu]
          show k ∈ _ ++ [cellKey x.1 x.2.1] ↔ _
          rw [List.mem_append, hmem k]
          constructor
          · rintro (⟨y, hy, hya, hyk⟩ | hk)
            · exact ⟨y, List.mem_append_left _ hy, hya, hyk⟩
            · rcases List.mem_singleton.mp hk with rfl
              exact ⟨x, List.mem_append_right _ (List.mem_singleton.mpr rfl), heq, rfl⟩
          · rintro ⟨y, hy, hya, hyk⟩
            rcases List.mem_append.mp hy with hy | hy
            · exact Or.inl ⟨y, hy, hya, hyk⟩
            · rcases List.mem_singleton.mp hy with rfl
              exact Or.inr (by rw [← hyk]; exact List.mem_singleton.mpr rfl)
      · have hwu : worstUpdate (some w) (xs.foldl scanStep scanInit).worstCells
            x.2.2.apr (cellKey x.1 x.2.1)
            = (some w, (xs.foldl scanStep scanInit).worstCells) := by
          simp only [worstUpdate]
          rw [if_neg (asymm hgt), if_neg (ne_of_gt hgt)]
        refine ⟨w, by rw [hwA, hwu], ⟨xm, List.mem_append_left _ hxm, hxma⟩, ?_, ?_⟩
        · intro y hy
          rcases List.mem_append.mp hy with hy | hy
          · exact hlb y hy
          · rcases List.mem_singleton.mp hy with rfl
            exact le_of_lt hgt
        · intro k
          rw [hwC, hwu, hmem k]
          constructor
          · rintro ⟨y, hy, hya, hyk⟩
            exact ⟨y, List.mem_append_left _ hy, hya, hyk⟩
          · rintro ⟨y, hy, hya, hyk⟩
            rcases List.mem_append.mp hy with hy | hy
            · exact ⟨y, hy, hya, hyk⟩
            · rcases List.mem_singleton.mp hy with rfl
              exact absurd hya (ne_of_gt hgt)

lemma contains_iff_mem (l : List String) (a : String) :
    l.contains a = true ↔ a ∈ l := List.elem_iff

lemma findBestWorstCells_apply (m : FundingMatrix) (ss es : List String)
    (s e : String) :
    findBestWorstCells m ss es s e
      = if (s, e) ∈ List.product ss es
        then (m s e).map (stampCell (scanCells m ss es) s e)
        else m s e := by
  unfold findBestWorstCells
  exact stampPass_apply _ _ _ _ _

lemma findBestWorstCells_isSome (m : FundingMatrix) (ss es : List String)
    (s e : String) :
    (findBestWorstCells m ss es s e).isSome = (m s e).isSome := by
  rw [findBestWorstCells_apply]
  split
  · cases m s e <;> rfl
  · rfl

lemma findBestWorstCells_spec (m : FundingMatrix) (ss es : List String)
    (hcov : ∀ s e, (m s e).isSome → s ∈ ss ∧ e ∈ es)
    (hinj : ∀ s e s' e', (m s e).isSome → (m s' e').isSome →
        cellKey s e = cellKey s' e' → s = s' ∧ e = e')
    (hne : ∃ s e, (m s e).isSome) :
    ∃ b w,
      (∀ s e c, m s e = some c → c.apr ≤ b ∧ w ≤ c.apr)
      ∧ (∃ s e c, m s e = some c ∧ c.apr = b)
      ∧ (∃ s e c, m s e = some c ∧ c.apr = w)
      ∧ (∀ s e c, m s e = some c →
          findBestWorstCells m ss es s e
            = some ⟨c.apr, c.rawPercent, decide (c.apr = b), decide (c.apr = w)⟩) := by
  obtain ⟨s₀, e₀, hs₀⟩ := hne
  obtain ⟨c₀, hc₀⟩ := Option.isSome_iff_exists.mp hs₀
  have hentne : presentCells m ss es ≠ [] := by
    have hx : (s₀, e₀, c₀) ∈ presentCells m ss es :=
      mem_presentCells.mpr ⟨(hcov s₀ e₀ hs₀).1, (hcov s₀ e₀ hs₀).2, hc₀⟩
    exact List.ne_nil_of_mem hx
  obtain ⟨b, hb, ⟨xb, hxb, hxba⟩, hub, hbmem⟩ := scan_best_spec (presentCells m ss es) hentne
  obtain ⟨w, hw, ⟨xw, hxw, hxwa⟩, hlb, hwmem⟩ := scan_worst_spec (presentCells m ss es) hentne
  have hmem_entry : ∀ s e c, m s e = some c → (s, e, c) ∈ presentCells m ss es := by
    intro s e c hc
    have hsome : (m s e).isSome = true := Option.isSome_iff_exists.mpr ⟨c, hc⟩
    exact mem_presentCells.mpr ⟨(hcov s e hsome).1, (hcov s e hsome).2, hc⟩
  refine ⟨b, w, ?_, ?_, ?_, ?_⟩
  · intro s e c hc
    exact ⟨hub _ (hmem_entry s e c hc), hlb _ (hmem_entry s e c hc)⟩
  · obtain ⟨hs, he, hc⟩ := mem_presentCells.mp hxb
    exact ⟨xb.1, xb.2.1, xb.2.2, hc, hxba⟩
  · obtain ⟨hs, he, hc⟩ := mem_presentCells.mp hxw
    exact ⟨xw.1, xw.2.1, xw.2.2, hc, hxwa⟩
  · intro s e c hc
    have hsome : (m s e).isSome = true := Option.isSome_iff_exists.mpr ⟨c, hc⟩
    have hx := hmem_entry s e c hc
    have hcb : (scanCells m ss es).bestCells.contains (cellKey s e)
        = decide (c.apr = b) := by
      by_cases hcapr : c.apr = b
      · rw [decide_eq_true hcapr]
        exact (contains_iff_mem _ _).mpr ((hbmem (cellKey s e)).mpr ⟨(s, e, c), hx, hcapr, rfl⟩)
      · rw [decide_eq_false hcapr]
        refine Bool.eq_false_iff.mpr (fun h => ?_)
        obtain ⟨y, hy, hya, hyk⟩ := (hbmem (cellKey s e)).mp ((contains_iff_mem _ _).mp h)
        obtain ⟨hys, hye, hyc⟩ := mem_presentCells.mp hy
        obtain ⟨h1, h2⟩ := hinj y.1 y.2.1 s e (Option.isSome_iff_exists.mpr ⟨y.2.2, hyc⟩)
          hsome hyk
        rw [h1, h2, hc] at hyc
        exact hcapr ((Option.some_inj.mp hyc) ▸ hya)
    have hcw : (scanCells m ss es).worstCells.contains (cellKey s e)
        = decide (c.apr = w) := by
      by_cases hcapr : c.apr = w
      · rw [decide_eq_true hcapr]
        exact (contains_iff_mem _ _).mpr ((hwmem (cellKey s e)).mpr ⟨(s, e, c), hx, hcapr, rfl⟩)
      · rw [decide_eq_false hcapr]
        refine Bool.eq_false_iff.mpr (fun h => ?_)
        obtain ⟨y, hy, hya, hyk⟩ := (hwmem (cellKey s e)).mp ((contains_iff_mem _ _).mp h)
        obtain ⟨hys, hye, hyc⟩ := mem_presentCells.mp hy
        obtain ⟨h1, h2⟩ := hinj y.1 y.2.1 s e (Option.isSome_iff_exists.mpr ⟨y.2.2, hyc⟩)
          hsome hyk
        rw [h1, h2, hc] at hyc
        exact hcapr ((Option.some_inj.mp hyc) ▸ hya)
    have hprod : (s, e) ∈ List.product ss es :=
      List.mem_product.mpr ⟨(hcov s e hsome).1, (hcov s e hsome).2⟩
    rw [findBestWorstCells_apply, if_pos hprod, hc, Option.map_some']
    unfold stampCell
    rw [hcb, hcw]

/-- Claim C3 (amended) — provided the composite keys
`` `${symbol}-${exchange}` `` are injective on the matrix's present cells
(no hyphen-induced collision), and every present cell lies within the
scanned symbol/exchange lists, `findBestWorstCells` on a non-empty matrix
marks at least one cell `isBest`, at least one `isWorst`, and every cell
marked `isBest` (resp. `isWorst`) carries the matrix-wide maximum
(resp. minimum) apr. -/
theorem findBestWorstCells_marks_extremes (m : FundingMatrix) (ss es : List String)
    (hcov : ∀ s e, (m s e).isSome → s ∈ ss ∧ e ∈ es)
    (hinj : ∀ s e s' e', (m s e).isSome → (m s' e').isSome →
        cellKey s e = cellKey s' e' → s = s' ∧ e = e')
    (hne : ∃ s e, (m s e).isSome) :
    (∃ s e c, findBestWorstCells m ss es s e = some c ∧ c.isBest = true)
      ∧ (∃ s e c, findBestWorstCells m ss es s e = some c ∧ c.isWorst = true)
      ∧ (∀ s e c, findBestWorstCells m ss es s e = some c → c.isBest = true →
          ∀ s' e' c', findBestWorstCells m ss es s' e' = some c' → c'.apr ≤ c.apr)
      ∧ (∀ s e c, findBestWorstCells m ss es s e = some c → c.isWorst = true →
          ∀ s' e' c', findBestWorstCells m ss es s' e' = some c' → c.apr ≤ c'.apr) := by
  obtain ⟨b, w, hbound, ⟨sb, eb, cb, hcb, hcba⟩, ⟨sw, ew, cw, hcw, hcwa⟩, hout⟩ :=
    findBestWorstCells_spec m ss es hcov hinj hne
  have hinv : ∀ s e c, findBestWorstCells m ss es s e = some c →
      ∃ c₀, m s e = some c₀
        ∧ c = ⟨c₀.apr, c₀.rawPercent, decide (c₀.apr = b), decide (c₀.apr = w)⟩ := by
    intro s e c hc
    have hsome : (m s e).isSome = true := by
      rw [← findBestWorstCells_isSome m ss es s e, hc]
      rfl
    obtain ⟨c₀, hc₀⟩ := Option.isSome_iff_exists.mp hsome
    have := hout s e c₀ hc₀
    rw [hc] at this
    exact ⟨c₀, hc₀, Option.some_inj.mp this⟩
  refine ⟨?_, ?_, ?_, ?_⟩
  · refine ⟨sb, eb, _, hout sb eb cb hcb, ?_⟩
    exact decide_eq_true hcba
  · refine ⟨sw, ew, _, hout sw ew cw hcw, ?_⟩
    exact decide_eq_true hcwa
  · intro s e c hc hbest s' e' c' hc'
    obtain ⟨c₀, hc₀, rfl⟩ := hinv s e c hc
    obtain ⟨c₀', hc₀', rfl⟩ := hinv s' e' c' hc'
    have : c₀.apr = b := of_decide_eq_true hbest
    simpa [this] using (hbound s' e' c₀' hc₀').1
  · intro s e c hc hworst s' e' c' hc'
    obtain ⟨c₀, hc₀, rfl⟩ := hinv s e c hc
    obtain ⟨c₀', hc₀', rfl⟩ := hinv s' e' c' hc'
    have : c₀.apr = w := of_decide_eq_true hworst
    simpa [this] using (hbound s' e' c₀' hc₀').2

/-- Claim C5 (amended) — under the same key-injectivity and coverage
hypotheses as C3, a cell marked both `isBest` and `isWorst` forces every
cell of the annotated matrix to carry one and the same apr value. -/
theorem findBestWorstCells_both_flags_single_apr (m : FundingMatrix)
    (ss es : List String)
    (hcov : ∀ s e, (m s e).isSome → s ∈ ss ∧ e ∈ es)
    (hinj : ∀ s e s' e', (m s e).isSome → (m s' e').isSome →
        cellKey s e = cellKey s' e' → s = s' ∧ e = e')
    (hboth : ∃ s e c, findBestWorstCells m ss es s e = some c
        ∧ c.isBest = true ∧ c.isWorst = true) :
    ∀ s e c s' e' c', findBestWorstCells m ss es s e = some c →
      findBestWorstCells m ss es s' e' = some c' → c.apr = c'.apr := by
  obtain ⟨s₁, e₁, c₁, hc₁, hb₁, hw₁⟩ := hboth
  have hne : ∃ s e, (m s e).isSome := by
    refine ⟨s₁, e₁, ?_⟩
    rw [← findBestWorstCells_isSome m ss es s₁ e₁, hc₁]
    rfl
  obtain ⟨b, w, hbound, _, _, hout⟩ := findBestWorstCells_spec m ss es hcov hinj hne
  have hinv : ∀ s e c, findBestWorstCells m ss es s e = some c →
      ∃ c₀, m s e = some c₀
        ∧ c = ⟨c₀.apr, c₀.rawPercent, decide (c₀.apr = b), decide (c₀.apr = w)⟩ := by
    intro s e c hc
    have hsome : (m s e).isSome = true := by
      rw [← findBestWorstCells_isSome m ss es s e, hc]
      rfl
    obtain ⟨c₀, hc₀⟩ := Option.isSome_iff_exists.mp hsome
    have := hout s e c₀ hc₀
    rw [hc] at this
    exact ⟨c₀, hc₀, Option.some_inj.mp this⟩
  obtain ⟨c₀, hc₀, rfl⟩ := hinv s₁ e₁ c₁ hc₁
  have hbw : b = w := by
    have h1 : c₀.apr = b := of_decide_eq_true hb₁
    have h2 : c₀.apr = w := of_decide_eq_true hw₁
    rw [← h1, h2]
  intro s e c s' e' c' hc hc'
  obtain ⟨d, hd, rfl⟩ := hinv s e c hc
  obtain ⟨d', hd', rfl⟩ := hinv s' e' c' hc'
  have h1 := hbound s e d hd
  have h2 := hbound s' e' d' hd'
  show d.apr = d'.apr
  rw [hbw] at h1 h2
  exact le_antisymm (le_trans h1.1 h2.2) (le_trans h2.1 h1.2)

/-- Claim C10 — `findBestWorstCells` changes only the `isBest`/`isWorst`
flags: presence of every (symbol, exchange) cell is preserved both ways,
and `apr` and `rawPercent` of every present cell are unchanged.  No
coverage or injectivity assumption is needed. -/
theorem findBestWorstCells_frame (m : FundingMatrix) (ss es : List String)
    (s e : String) :
    (findBestWorstCells m ss es s e).isSome = (m s e).isSome
      ∧ (∀ c, m s e = some c → ∃ c', findBestWorstCells m ss es s e = some c'
            ∧ c'.apr = c.apr ∧ c'.rawPercent = c.rawPercent) := by
  refine ⟨findBestWorstCells_isSome m ss es s e, ?_⟩
  intro c hc
  rw [findBestWorstCells_apply]
  split
  · rw [hc, Option.map_some']
    exact ⟨_, rfl, stampCell_apr _ _ _ _, stampCell_rawPercent _ _ _ _⟩
  · exact ⟨c, hc, rfl, rfl⟩

/-- A matrix whose two present cells collide on the composite key:
`cellKey "a" "x-y"` and `cellKey "a-x" "y"` are both `"a-x-y"`. -/
def collisionMatrixA : FundingMatrix := fun s e =>
  if s = "a" ∧ e = "x-y" then some ⟨10, 0, false, false⟩
  else if s = "a-x" ∧ e = "y" then some ⟨0, 0, false, false⟩
  else none

/-- Counterexample to claim C3 as stated: in a matrix whose present cells
are (a, x-y) with apr 10 and (a-x, y) with apr 0, the hyphen-joined keys
of the two cells collide, so `findBestWorstCells` marks the apr-0 cell
`isBest = true` even though the matrix-wide maximum apr is 10 ≠ 0. -/
theorem findBestWorstCells_key_collision_counterexample :
    findBestWorstCells collisionMatrixA ["a", "a-x"] ["x-y", "y"] "a-x" "y"
        = some ⟨0, 0, true, true⟩
      ∧ findBestWorstCells collisionMatrixA ["a", "a-x"] ["x-y", "y"] "a" "x-y"
        = some ⟨10, 0, true, true⟩
      ∧ (0 : ℚ) < 10 := by
  refine ⟨by decide, by decide, ?_⟩
  norm_num

/-- A single-cell matrix used to witness the amended C3. -/
def singleCellMatrixA : FundingMatrix := fun s e =>
  if s = "BTC" ∧ e = "binance" then some ⟨5, 1, false, false⟩ else none

lemma singleCellMatrixA_cases (s e : String) (c : RateCell)
    (h : singleCellMatrixA s e = some c) :
    s = "BTC" ∧ e = "binance" ∧ c = ⟨5, 1, false, false⟩ := by
  unfold singleCellMatrixA at h
  by_cases hc : s = "BTC" ∧ e = "binance"
  · rw [if_pos hc] at h
    exact ⟨hc.1, hc.2, (Option.some_inj.mp h).symm⟩
  · rw [if_neg hc] at h
    cases h

/-- Witness for the amended C3 on a one-cell collision-free matrix. -/
theorem findBestWorstCells_marks_extremes_witness :
    (∃ s e c, findBestWorstCells singleCellMatrixA ["BTC"] ["binance"] s e = some c
        ∧ c.isBest = true)
      ∧ (∃ s e c, findBestWorstCells singleCellMatrixA ["BTC"] ["binance"] s e = some c
          ∧ c.isWorst = true)
      ∧ (∀ s e c, findBestWorstCells singleCellMatrixA ["BTC"] ["binance"] s e = some c →
          c.isBest = true →
          ∀ s' e' c', findBestWorstCells singleCellMatrixA ["BTC"] ["binance"] s' e' = some c' →
            c'.apr ≤ c.apr)
      ∧ (∀ s e c, findBestWorstCells singleCellMatrixA ["BTC"] ["binance"] s e = some c →
          c.isWorst = true →
          ∀ s' e' c', findBestWorstCells singleCellMatrixA ["BTC"] ["binance"] s' e' = some c' →
            c.apr ≤ c'.apr) := by
  refine findBestWorstCells_marks_extremes singleCellMatrixA ["BTC"] ["binance"] ?_ ?_ ?_
  · intro s e h
    obtain ⟨c, hc⟩ := Option.isSome_iff_exists.mp h
    obtain ⟨hs, he, _⟩ := singleCellMatrixA_cases s e c hc
    exact ⟨hs ▸ List.mem_singleton.mpr rfl, he ▸ List.mem_singleton.mpr rfl⟩
  · intro s e s' e' h h' _
    obtain ⟨c, hc⟩ := Option.isSome_iff_exists.mp h
    obtain ⟨c', hc'⟩ := Option.isSome_iff_exists.mp h'
    obtain ⟨hs, he, _⟩ := singleCellMatrixA_cases s e c hc
    obtain ⟨hs', he', _⟩ := singleCellMatrixA_cases s' e' c' hc'
    exact ⟨hs.trans hs'.symm, he.trans he'.symm⟩
  · exact ⟨"BTC", "binance", by decide⟩

/-- A second key-collision matrix, echoing the spec's `{5, 5, -3}`-style
scenario: cells (b, x-y) with apr 5 and (b-x, y) with apr -3 share the
key `"b-x-y"`. -/
def collisionMatrixB : FundingMatrix := fun s e =>
  if s = "b" ∧ e = "x-y" then some ⟨5, 1, false, false⟩
  else if s = "b-x" ∧ e = "y" then some ⟨-3, 1, false, false⟩
  else none

/-- Counterexample to claim C5 as stated: after annotation of a two-cell
matrix with aprs 5 and -3 whose composite keys collide, the cell (b, x-y)
carries `isBest = true` *and* `isWorst = true`, yet the matrix holds two
distinct apr values. -/
theorem findBestWorstCells_both_flags_counterexample :
    findBestWorstCells collisionMatrixB ["b", "b-x"] ["x-y", "y"] "b" "x-y"
        = some ⟨5, 1, true, true⟩
      ∧ findBestWorstCells collisionMatrixB ["b", "b-x"] ["x-y", "y"] "b-x" "y"
        = some ⟨-3, 1, true, true⟩
      ∧ (5 : ℚ) ≠ -3 := by
  refine ⟨by decide, by decide, ?_⟩
  norm_num

/-- A single-cell matrix used to witness the amended C5. -/
def singleCellMatrixB : FundingMatrix := fun s e =>
  if s = "ETH" ∧ e = "kraken" then some ⟨2, 1, false, false⟩ else none

lemma singleCellMatrixB_cases (s e : String) (c : RateCell)
    (h : singleCellMatrixB s e = some c) :
    s = "ETH" ∧ e = "kraken" ∧ c = ⟨2, 1, false, false⟩ := by
  unfold singleCellMatrixB at h
  by_cases hc : s = "ETH" ∧ e = "kraken"
  · rw [if_pos hc] at h
    exact ⟨hc.1, hc.2, (Option.some_inj.mp h).symm⟩
  · rw [if_neg hc] at h
    cases h

/-- Witness for the amended C5: on a one-cell matrix the unique cell is
both best and worst, and the apr equality holds at that cell. -/
theorem findBestWorstCells_both_flags_single_apr_witness :
    findBestWorstCells singleCellMatrixB ["ETH"] ["kraken"] "ETH" "kraken"
        = some ⟨2, 1, true, true⟩
      ∧ (⟨2, 1, true, true⟩ : RateCell).apr = (⟨2, 1, true, true⟩ : RateCell).apr := by
  have hcov : ∀ s e, (singleCellMatrixB s e).isSome → s ∈ ["ETH"] ∧ e ∈ ["kraken"] := by
    intro s e h
    obtain ⟨c, hc⟩ := Option.isSome_iff_exists.mp h
    obtain ⟨hs, he, _⟩ := singleCellMatrixB_cases s e c hc
    exact ⟨hs ▸ List.mem_singleton.mpr rfl, he ▸ List.mem_singleton.mpr rfl⟩
  have hinj : ∀ s e s' e', (singleCellMatrixB s e).isSome → (singleCellMatrixB s' e').isSome →
      cellKey s e = cellKey s' e' → s = s' ∧ e = e' := by
    intro s e s' e' h h' _
    obtain ⟨c, hc⟩ := Option.isSome_iff_exists.mp h
    obtain ⟨c', hc'⟩ := Option.isSome_iff_exists.mp h'
    obtain ⟨hs, he, _⟩ := singleCellMatrixB_cases s e c hc
    obtain ⟨hs', he', _⟩ := singleCellMatrixB_cases s' e' c' hc'
    exact ⟨hs.trans hs'.symm, he.trans he'.symm⟩
  have hboth : ∃ s e c, findBestWorstCells singleCellMatrixB ["ETH"] ["kraken"] s e = some c
      ∧ c.isBest = true ∧ c.isWorst = true :=
    ⟨"ETH", "kraken", ⟨2, 1, true, true⟩, by decide, rfl, rfl⟩
  refine ⟨by decide, ?_⟩
  exact findBestWorstCells_both_flags_single_apr singleCellMatrixB ["ETH"] ["kraken"]
    hcov hinj hboth "ETH" "kraken" ⟨2, 1, true, true⟩ "ETH" "kraken" ⟨2, 1, true, true⟩
    (by decide) (by decide)

/-- A single-cell matrix used to witness C10. -/
def singleCellMatrixC : FundingMatrix := fun s e =>
  if s = "SOL" ∧ e = "okx" then some ⟨7, 2, false, false⟩ else none

/-- Witness for C10 on a one-cell matrix. -/
theorem findBestWorstCells_frame_witness :
    ((findBestWorstCells singleCellMatrixC ["SOL"] ["okx"] "SOL" "okx").isSome
        = (singleCellMatrixC "SOL" "okx").isSome)
      ∧ (∃ c', findBestWorstCells singleCellMatrixC ["SOL"] ["okx"] "SOL" "okx" = some c'
            ∧ c'.apr = (⟨7, 2, false, false⟩ : RateCell).apr
            ∧ c'.rawPercent = (⟨7, 2, false, false⟩ : RateCell).rawPercent) := by
  have h := findBestWorstCells_frame singleCellMatrixC ["SOL"] ["okx"] "SOL" "okx"
  exact ⟨h.1, h.2 ⟨7, 2, false, false⟩ (by decide)⟩

/-- One arbitrage opportunity as pushed by
`calculateArbitrageOpportunities` (exchange names already passed through
`getExchangeDisplayName`). -/
structure ArbitrageOpportunity where
  symbol : String
  longExchange : String
  shortExchange : String
  longRate : ℚ
  shortRate : ℚ
  netCollection : ℚ
deriving DecidableEq

/-- The index pairs `i < j` of the double loop of
`calculateArbitrageOpportunities`, as the ordered pairs of a list. -/
def pairsOf : List String → List (String × String)
  | [] => []
  | x :: xs => xs.map (fun y => (x, y)) ++ pairsOf xs

/-- The apr read `symbolData[ex].apr`; the `getD 0` default is never reached because
callers only pass exchanges whose cell is present. -/
def aprOf (row : String → Option RateCell) (e : String) : ℚ :=
  ((row e).map RateCell.apr).getD 0

/-- The body of the double loop of `calculateArbitrageOpportunities`:
`diff = Math.abs(apr1 - apr2)`; a pair is pushed iff `diff >= 0.5`, with
the lower-apr exchange as long side and the higher as short side. -/
def pairOpp (symbol e1 e2 : String) (apr1 apr2 : ℚ) : Option ArbitrageOpportunity :=
  let diff := mathAbs (apr1 - apr2)
  if 1/2 ≤ diff then
    some { symbol := symbol
         , longExchange := getExchangeDisplayName (if apr1 < apr2 then e1 else e2)
         , shortExchange := getExchangeDisplayName (if apr1 < apr2 then e2 else e1)
         , longRate := if apr1 < apr2 then apr1 else apr2
         , shortRate := if apr1 < apr2 then apr2 else apr1
         , netCollection := diff }
  else none

/-- The per-symbol part of `calculateArbitrageOpportunities`: restrict to
the exchanges holding a cell for the symbol, skip the symbol when fewer
than two remain, and run the `i < j` double loop. -/
def symbolOpportunities (row : String → Option RateCell) (symbol : String)
    (exchanges : List String) : List ArbitrageOpportunity :=
  let availableExchanges := exchanges.filter (fun e => (row e).isSome)
  if availableExchanges.length < 2 then []
  else (pairsOf availableExchanges).filterMap
    (fun p => pairOpp symbol p.1 p.2 (aprOf row p.1) (aprOf row p.2))

/-- Insertion step of the descending sort on `netCollection`. -/
def insertByNetDesc (o : ArbitrageOpportunity) :
    List ArbitrageOpportunity → List ArbitrageOpportunity
  | [] => [o]
  | x :: xs =>
    if x.netCollection ≤ o.netCollection then o :: x :: xs
    else x :: insertByNetDesc o xs

/-- The route's `.sort((a, b) => b.netCollection - a.netCollection)`:
a sort descending on `netCollection`, embedded as an insertion sort (the
spec leaves the order of exact ties unspecified). -/
def sortByNetDesc : List ArbitrageOpportunity → List ArbitrageOpportunity
  | [] => []
  | x :: xs => insertByNetDesc x (sortByNetDesc xs)

/-- The route function `calculateArbitrageOpportunities(matrix, symbols,
exchanges)`: collect the per-symbol opportunities in symbol order, sort by
`netCollection` descending, and `.slice(0, 20)`. -/
def calculateArbitrageOpportunities (matrix : FundingMatrix)
    (symbols exchanges : List String) : List ArbitrageOpportunity :=
  (sortByNetDesc
    (symbols.flatMap (fun s => symbolOpportunities (matrix s) s exchanges))).take 20

lemma mem_pairsOf {l : List String} {p : String × String} (h : p ∈ pairsOf l) :
    p.1 ∈ l ∧ p.2 ∈ l := by
  induction l with
  | nil => cases h
  | cons x xs ih =>
    rcases List.mem_append.mp h with h | h
    · obtain ⟨y, hy, hyp⟩ := List.mem_map.mp h
      rw [← hyp]
      exact ⟨List.mem_cons_self _ _, List.mem_cons_of_mem _ hy⟩
    · obtain ⟨h1, h2⟩ := ih h
      exact ⟨List.mem_cons_of_mem _ h1, List.mem_cons_of_mem _ h2⟩

lemma mem_insertByNetDesc {o x : ArbitrageOpportunity}
    {l : List ArbitrageOpportunity} :
    x ∈ insertByNetDesc o l ↔ x = o ∨ x ∈ l := by
  induction l with
  | nil => simp [insertByNetDesc]
  | cons y ys ih =>
    unfold insertByNetDesc
    split
    · simp only [List.mem_cons]
    · simp only [List.mem_cons, ih]
      tauto

lemma mem_sortByNetDesc {x : ArbitrageOpportunity} {l : List ArbitrageOpportunity} :
    x ∈ sortByNetDesc l ↔ x ∈ l := by
  induction l with
  | nil => simp [sortByNetDesc]
  | cons y ys ih =>
    unfold sortByNetDesc
    rw [mem_insertByNetDesc, ih, List.mem_cons]

lemma length_insertByNetDesc (o : ArbitrageOpportunity)
    (l : List ArbitrageOpportunity) :
    (insertByNetDesc o l).length = l.length + 1 := by
  induction l with
  | nil => rfl
  | cons y ys ih =>
    unfold insertByNetDesc
    split
    · rfl
    · simp [ih]

lemma length_sortByNetDesc (l : List ArbitrageOpportunity) :
    (sortByNetDesc l).length = l.length := by
  induction l with
  | nil => rfl
  | cons y ys ih =>
    unfold sortByNetDesc
    rw [length_insertByNetDesc, ih, List.length_cons]

lemma pairwise_insertByNetDesc (o : ArbitrageOpportunity)
    (l : List ArbitrageOpportunity)
    (h : l.Pairwise (fun a b => b.netCollection ≤ a.netCollection)) :
    (insertByNetDesc o l).Pairwise (fun a b => b.netCollection ≤ a.netCollection) := by
  induction l with
  | nil => simp [insertByNetDesc]
  | cons y ys ih =>
    obtain ⟨hy, hys⟩ := List.pairwise_cons.mp h
    unfold insertByNetDesc
    split
    · rename_i hcmp
      refine List.pairwise_cons.mpr ⟨?_, h⟩
      intro z hz
      rcases List.mem_cons.mp hz with rfl | hz
      · exact hcmp
      · exact le_trans (hy z hz) hcmp
    · rename_i hcmp
      push_neg at hcmp
      refine List.pairwise_cons.mpr ⟨?_, ih hys⟩
      intro z hz
      rcases mem_insertByNetDesc.mp hz with rfl | hz
      · exact le_of_lt hcmp
      · exact hy z hz

lemma pairwise_sortByNetDesc (l : List ArbitrageOpportunity) :
    (sortByNetDesc l).Pairwise (fun a b => b.netCollection ≤ a.netCollection) := by
  induction l with
  | nil => simp [sortByNetDesc]
  | cons y ys ih =>
    unfold sortByNetDesc
    exact pairwise_insertByNetDesc y _ ih

lemma aprOf_eq {row : String → Option RateCell} {e : String} {c : RateCell}
    (h : row e = some c) : aprOf row e = c.apr := by
  unfold aprOf
  rw [h]
  rfl

lemma mathAbs_sub_of_lt {a b : ℚ} (h : a < b) : mathAbs (a - b) = b - a := by
  unfold mathAbs
  rw [if_pos (by linarith)]
  ring

lemma mathAbs_sub_of_ge {a b : ℚ} (h : b ≤ a) : mathAbs (a - b) = a - b := by
  unfold mathAbs
  rw [if_neg (by linarith)]

lemma pairOpp_some_spec {s e1 e2 : String} {a1 a2 : ℚ} {o : ArbitrageOpportunity}
    (h : pairOpp s e1 e2 a1 a2 = some o) :
    1/2 ≤ o.netCollection
      ∧ 0 ≤ o.netCollection
      ∧ o.longRate < o.shortRate
      ∧ o.symbol = s
      ∧ o.netCollection = o.shortRate - o.longRate
      ∧ ((o.longExchange = getExchangeDisplayName e1
            ∧ o.shortExchange = getExchangeDisplayName e2
            ∧ o.longRate = a1 ∧ o.shortRate = a2 ∧ a1 < a2)
        ∨ (o.longExchange = getExchangeDisplayName e2
            ∧ o.shortExchange = getExchangeDisplayName e1
            ∧ o.longRate = a2 ∧ o.shortRate = a1 ∧ a2 < a1)) := by
  unfold pairOpp at h
  by_cases hd : (1:ℚ)/2 ≤ mathAbs (a1 - a2)
  · rw [if_pos hd] at h
    by_cases hlt : a1 < a2
    · simp only [if_pos hlt] at h
      rw [mathAbs_sub_of_lt hlt] at h
      obtain rfl := Option.some_inj.mp h
      rw [mathAbs_sub_of_lt hlt] at hd
      refine ⟨hd, by show (0:ℚ) ≤ a2 - a1; linarith, hlt, rfl, rfl,
        Or.inl ⟨rfl, rfl, rfl, rfl, hlt⟩⟩
    · have hge : a2 ≤ a1 := not_lt.mp hlt
      have hstrict : a2 < a1 := by
        rcases lt_or_eq_of_le hge with h' | h'
        · exact h'
        · exfalso
          rw [h'] at hd
          have hz : mathAbs (a1 - a1) = 0 := by
            unfold mathAbs
            rw [sub_self, if_neg (lt_irrefl (0:ℚ))]
          rw [hz] at hd
          linarith
      simp only [if_neg hlt] at h
      rw [mathAbs_sub_of_ge hge] at h
      obtain rfl := Option.some_inj.mp h
      rw [mathAbs_sub_of_ge hge] at hd
      refine ⟨hd, by show (0:ℚ) ≤ a1 - a2; linarith, hstrict, rfl, rfl,
        Or.inr ⟨rfl, rfl, rfl, rfl, hstrict⟩⟩
  · rw [if_neg hd] at h
    cases h

lemma mem_symbolOpportunities {row : String → Option RateCell} {s : String}
    {es : List String} {o : ArbitrageOpportunity}
    (h : o ∈ symbolOpportunities row s es) :
    ∃ e1 e2, e1 ∈ es ∧ e2 ∈ es ∧ (row e1).isSome ∧ (row e2).isSome
      ∧ pairOpp s e1 e2 (aprOf row e1) (aprOf row e2) = some o := by
  simp only [symbolOpportunities] at h
  split at h
  · cases h
  · obtain ⟨p, hp, hpo⟩ := List.mem_filterMap.mp h
    obtain ⟨h1, h2⟩ := mem_pairsOf hp
    obtain ⟨h1e, h1s⟩ := List.mem_filter.mp h1
    obtain ⟨h2e, h2s⟩ := List.mem_filter.mp h2
    exact ⟨p.1, p.2, h1e, h2e, h1s, h2s, hpo⟩

lemma mem_calcArb {matrix : FundingMatrix} {symbols exchanges : List String}
    {o : ArbitrageOpportunity}
    (h : o ∈ calculateArbitrageOpportunities matrix symbols exchanges) :
    ∃ s ∈ symbols, o ∈ symbolOpportunities (matrix s) s exchanges := by
  unfold calculateArbitrageOpportunities at h
  exact List.mem_flatMap.mp (mem_sortByNetDesc.mp (List.mem_of_mem_take h))

/-- Claim C7 — the output of `calculateArbitrageOpportunities` is sorted
non-increasing in `netCollection` and never longer than the hard-coded
`topN = 20`, for every input matrix. -/
theorem calcArb_sorted_and_capped (matrix : FundingMatrix)
    (symbols exchanges : List String) :
    List.Pairwise (fun a b => b.netCollection ≤ a.netCollection)
        (calculateArbitrageOpportunities matrix symbols exchanges)
      ∧ (calculateArbitrageOpportunities matrix symbols exchanges).length ≤ 20 := by
  constructor
  · exact (pairwise_sortByNetDesc _).sublist (List.take_sublist _ _)
  · exact List.length_take_le _ _

/-- Claim C9 — every emitted opportunity clears the hard-coded minimum
spread: `netCollection ≥ 0.5`; pairs whose absolute apr difference is
below 0.5 are silently dropped even though no spread filter was asked
for. -/
theorem calcArb_min_spread (matrix : FundingMatrix)
    (symbols exchanges : List String) (o : ArbitrageOpportunity)
    (h : o ∈ calculateArbitrageOpportunities matrix symbols exchanges) :
    1/2 ≤ o.netCollection := by
  obtain ⟨s, _, ho⟩ := mem_calcArb h
  obtain ⟨e1, e2, _, _, _, _, hp⟩ := mem_symbolOpportunities ho
  exact (pairOpp_some_spec hp).1

/-- Claim C6 — every emitted opportunity has `netCollection ≥ 0`
(indeed `netCollection = shortRate − longRate = |apr₁ − apr₂|`),
`longRate ≤ shortRate`, and its long/short exchanges are the display
names of the matrix cells with the lower/higher apr respectively. -/
theorem calcArb_orientation (matrix : FundingMatrix)
    (symbols exchanges : List String) (o : ArbitrageOpportunity)
    (h : o ∈ calculateArbitrageOpportunities matrix symbols exchanges) :
    0 ≤ o.netCollection
      ∧ o.longRate ≤ o.shortRate
      ∧ o.netCollection = o.shortRate - o.longRate
      ∧ ∃ s eL eS cL cS, s ∈ symbols
          ∧ matrix s eL = some cL ∧ matrix s eS = some cS
          ∧ cL.apr < cS.apr
          ∧ o.longExchange = getExchangeDisplayName eL
          ∧ o.shortExchange = getExchangeDisplayName eS
          ∧ o.longRate = cL.apr ∧ o.shortRate = cS.apr := by
  obtain ⟨s, hs, ho⟩ := mem_calcArb h
  obtain ⟨e1, e2, he1, he2, h1s, h2s, hp⟩ := mem_symbolOpportunities ho
  obtain ⟨c1, hc1⟩ := Option.isSome_iff_exists.mp h1s
  obtain ⟨c2, hc2⟩ := Option.isSome_iff_exists.mp h2s
  obtain ⟨_, hnn, hlt, _, hnet, hcases⟩ := pairOpp_some_spec hp
  refine ⟨hnn, le_of_lt hlt, hnet, ?_⟩
  rcases hcases with ⟨hle, hse, hlr, hsr, hord⟩ | ⟨hle, hse, hlr, hsr, hord⟩
  · refine ⟨s, e1, e2, c1, c2, hs, hc1, hc2, ?_, hle, hse, ?_, ?_⟩
    · rw [← aprOf_eq hc1, ← aprOf_eq hc2]
      exact hord
    · rw [hlr, aprOf_eq hc1]
    · rw [hsr, aprOf_eq hc2]
  · refine ⟨s, e2, e1, c2, c1, hs, hc2, hc1, ?_, hle, hse, ?_, ?_⟩
    · rw [← aprOf_eq hc1, ← aprOf_eq hc2]
      exact hord
    · rw [hlr, aprOf_eq hc2]
    · rw [hsr, aprOf_eq hc1]

lemma pairOpp_isSome_of_spread {s e1 e2 : String} {a1 a2 : ℚ}
    (h : 1/2 ≤ mathAbs (a1 - a2)) :
    ∃ o, pairOpp s e1 e2 a1 a2 = some o := by
  have hs : (pairOpp s e1 e2 a1 a2).isSome = true := by
    simp only [pairOpp]
    rw [if_pos h]
    rfl
  exact Option.isSome_iff_exists.mp hs

lemma symbolOpportunities_pair (row : String → Option RateCell) (s A B : String)
    (es : List String) (hav : es.filter (fun e => (row e).isSome) = [A, B]) :
    symbolOpportunities row s es
      = (pairOpp s A B (aprOf row A) (aprOf row B)).toList := by
  simp only [symbolOpportunities, hav]
  rw [if_neg (by simp : ¬ (([A, B] : List String).length < 2))]
  show List.filterMap _ [(A, B)] = _
  cases hp : pairOpp s A B (aprOf row A) (aprOf row B) <;>
    simp [List.filterMap_cons, hp, Option.toList]

lemma symbolOpportunities_triple (row : String → Option RateCell) (s A B C : String)
    (es : List String) (hav : es.filter (fun e => (row e).isSome) = [A, B, C]) :
    symbolOpportunities row s es
      = (pairOpp s A B (aprOf row A) (aprOf row B)).toList
        ++ (pairOpp s A C (aprOf row A) (aprOf row C)).toList
        ++ (pairOpp s B C (aprOf row B) (aprOf row C)).toList := by
  simp only [symbolOpportunities, hav]
  rw [if_neg (by simp : ¬ (([A, B, C] : List String).length < 2))]
  show List.filterMap _ [(A, B), (A, C), (B, C)] = _
  cases h1 : pairOpp s A B (aprOf row A) (aprOf row B) <;>
    cases h2 : pairOpp s A C (aprOf row A) (aprOf row C) <;>
      cases h3 : pairOpp s B C (aprOf row B) (aprOf row C) <;>
        simp [List.filterMap_cons, List.filterMap_nil, h1, h2, h3, Option.toList]

/-- Claim C2 (amended) — for a symbol whose row has cells for exactly the
three exchanges A, B, C (in that order of the exchange list), the
per-symbol pass of `calculateArbitrageOpportunities` emits one
opportunity per unordered pair whose absolute apr difference clears the
hard-coded 0.5 threshold: at most 3 in total, exactly 3 when all three
spreads clear it, each from two distinct exchanges (never a self-pair);
and with this symbol alone the final output keeps them all (3 ≤ 20). -/
theorem symbolOpportunities_three_exchanges (m : FundingMatrix) (s A B C : String)
    (es : List String)
    (hav : es.filter (fun e => (m s e).isSome) = [A, B, C])
    (hAB : A ≠ B) (hAC : A ≠ C) (hBC : B ≠ C) :
    (symbolOpportunities (m s) s es).length ≤ 3
      ∧ ((1/2 ≤ mathAbs (aprOf (m s) A - aprOf (m s) B)
            ∧ 1/2 ≤ mathAbs (aprOf (m s) A - aprOf (m s) C)
            ∧ 1/2 ≤ mathAbs (aprOf (m s) B - aprOf (m s) C)) →
          (symbolOpportunities (m s) s es).length = 3)
      ∧ (∀ o ∈ symbolOpportunities (m s) s es,
          ∃ e1 e2, e1 ≠ e2
            ∧ ((e1, e2) = (A, B) ∨ (e1, e2) = (A, C) ∨ (e1, e2) = (B, C))
            ∧ pairOpp s e1 e2 (aprOf (m s) e1) (aprOf (m s) e2) = some o)
      ∧ (calculateArbitrageOpportunities m [s] es).length
          = (symbolOpportunities (m s) s es).length := by
  have heq := symbolOpportunities_triple (m s) s A B C es hav
  have hlen : ∀ o : Option ArbitrageOpportunity, o.toList.length ≤ 1 := by
    intro o; cases o <;> simp [Option.toList]
  have hlen3 : (symbolOpportunities (m s) s es).length ≤ 3 := by
    rw [heq]
    simp only [List.length_append]
    have := hlen (pairOpp s A B (aprOf (m s) A) (aprOf (m s) B))
    have := hlen (pairOpp s A C (aprOf (m s) A) (aprOf (m s) C))
    have := hlen (pairOpp s B C (aprOf (m s) B) (aprOf (m s) C))
    omega
  refine ⟨hlen3, ?_, ?_, ?_⟩
  · rintro ⟨h1, h2, h3⟩
    obtain ⟨o1, ho1⟩ := @pairOpp_isSome_of_spread s A B (aprOf (m s) A) (aprOf (m s) B) h1
    obtain ⟨o2, ho2⟩ := @pairOpp_isSome_of_spread s A C (aprOf (m s) A) (aprOf (m s) C) h2
    obtain ⟨o3, ho3⟩ := @pairOpp_isSome_of_spread s B C (aprOf (m s) B) (aprOf (m s) C) h3
    rw [heq, ho1, ho2, ho3]
    rfl
  · intro o ho
    rw [heq] at ho
    rcases List.mem_append.mp ho with ho | ho
    · rcases List.mem_append.mp ho with ho | ho
      · exact ⟨A, B, hAB, Or.inl rfl, Option.mem_def.mp (Option.mem_toList.mp ho)⟩
      · exact ⟨A, C, hAC, Or.inr (Or.inl rfl), Option.mem_def.mp (Option.mem_toList.mp ho)⟩
    · exact ⟨B, C, hBC, Or.inr (Or.inr rfl), Option.mem_def.mp (Option.mem_toList.mp ho)⟩
  · unfold calculateArbitrageOpportunities
    simp only [List.flatMap_cons, List.flatMap_nil, List.append_nil]
    rw [List.length_take, length_sortByNetDesc]
    exact min_eq_right (le_trans hlen3 (by norm_num))

/-- A row with cells on exactly three exchanges, all with apr 0. -/
def zeroRowMatrix : FundingMatrix := fun s e =>
  if s = "BTC" ∧ (e = "a" ∨ e = "b" ∨ e = "c") then some ⟨0, 0, false, false⟩
  else none

/-- Counterexample to claim C2 as stated: the symbol BTC has cells on
exactly three exchanges a, b, c, yet `calculateArbitrageOpportunities`
emits zero opportunities (not 3), because every pairwise apr difference
(0) falls below the hard-coded 0.5 spread threshold. -/
theorem calcArb_three_exchanges_counterexample :
    ["a", "b", "c"].filter (fun e => (zeroRowMatrix "BTC" e).isSome) = ["a", "b", "c"]
      ∧ calculateArbitrageOpportunities zeroRowMatrix ["BTC"] ["a", "b", "c"] = [] := by
  refine ⟨by decide, ?_⟩
  have ha : aprOf (zeroRowMatrix "BTC") "a" = 0 := by decide
  have hb : aprOf (zeroRowMatrix "BTC") "b" = 0 := by decide
  have hc : aprOf (zeroRowMatrix "BTC") "c" = 0 := by decide
  have hno : ∀ e1 e2 : String, pairOpp "BTC" e1 e2 0 0 = none := by
    intro e1 e2
    simp only [pairOpp]
    rw [if_neg (by norm_num [mathAbs] : ¬ ((1:ℚ)/2 ≤ mathAbs ((0:ℚ) - 0)))]
  have hsym : symbolOpportunities (zeroRowMatrix "BTC") "BTC" ["a", "b", "c"] = [] := by
    rw [symbolOpportunities_triple (zeroRowMatrix "BTC") "BTC" "a" "b" "c" _ (by decide),
      ha, hb, hc, hno, hno, hno]
    rfl
  unfold calculateArbitrageOpportunities
  simp only [List.flatMap_cons, List.flatMap_nil, List.append_nil, hsym]
  rfl

/-- A row with cells on three exchanges whose pairwise spreads all clear
the 0.5 threshold, used to witness the amended C2. -/
def spreadRowMatrix : FundingMatrix := fun s e =>
  if s = "BTC" ∧ e = "a" then some ⟨0, 0, false, false⟩
  else if s = "BTC" ∧ e = "b" then some ⟨1, 0, false, false⟩
  else if s = "BTC" ∧ e = "c" then some ⟨3, 0, false, false⟩
  else none

/-- Witness for the amended C2: three present exchanges with aprs 0, 1, 3
give exactly 3 opportunities, all from distinct exchange pairs. -/
theorem symbolOpportunities_three_exchanges_witness :
    (symbolOpportunities (spreadRowMatrix "BTC") "BTC" ["a", "b", "c"]).length ≤ 3
      ∧ (symbolOpportunities (spreadRowMatrix "BTC") "BTC" ["a", "b", "c"]).length = 3
      ∧ (calculateArbitrageOpportunities spreadRowMatrix ["BTC"] ["a", "b", "c"]).length
          = (symbolOpportunities (spreadRowMatrix "BTC") "BTC" ["a", "b", "c"]).length := by
  have h := symbolOpportunities_three_exchanges spreadRowMatrix "BTC" "a" "b" "c"
    ["a", "b", "c"] (by decide) (by decide) (by decide) (by decide)
  have ha : aprOf (spreadRowMatrix "BTC") "a" = 0 := by decide
  have hb : aprOf (spreadRowMatrix "BTC") "b" = 1 := by decide
  have hc : aprOf (spreadRowMatrix "BTC") "c" = 3 := by decide
  refine ⟨h.1, h.2.1 ⟨?_, ?_, ?_⟩, h.2.2.2⟩
  · rw [ha, hb]
    norm_num [mathAbs]
  · rw [ha, hc]
    norm_num [mathAbs]
  · rw [hb, hc]
    norm_num [mathAbs]

/-- A two-exchange row (aprs 10 and 15) used to witness C6, matching the
spec's BTC scenario. -/
def arbMatrixA : FundingMatrix := fun s e =>
  if s = "BTC" ∧ e = "alpha" then some ⟨10, 0, false, false⟩
  else if s = "BTC" ∧ e = "beta" then some ⟨15, 0, false, false⟩
  else none

lemma arbMatrixA_opportunities :
    calculateArbitrageOpportunities arbMatrixA ["BTC"] ["alpha", "beta"]
      = [⟨"BTC", "Alpha", "Beta", 10, 15, 5⟩] := by
  have hDA : getExchangeDisplayName "alpha" = "Alpha" := by decide
  have hDB : getExchangeDisplayName "beta" = "Beta" := by decide
  have hA : aprOf (arbMatrixA "BTC") "alpha" = 10 := by decide
  have hB : aprOf (arbMatrixA "BTC") "beta" = 15 := by decide
  have habs : mathAbs ((10:ℚ) - 15) = 5 := by norm_num [mathAbs]
  have hpair : pairOpp "BTC" "alpha" "beta" 10 15
      = some ⟨"BTC", "Alpha", "Beta", 10, 15, 5⟩ := by
    simp only [pairOpp, habs]
    rw [if_pos (by norm_num : (1:ℚ)/2 ≤ 5)]
    simp only [if_pos (show (10:ℚ) < 15 by norm_num), hDA, hDB]
  have hsym : symbolOpportunities (arbMatrixA "BTC") "BTC" ["alpha", "beta"]
      = [⟨"BTC", "Alpha", "Beta", 10, 15, 5⟩] := by
    rw [symbolOpportunities_pair (arbMatrixA "BTC") "BTC" "alpha" "beta" _ (by decide),
      hA, hB, hpair]
    rfl
  unfold calculateArbitrageOpportunities
  simp only [List.flatMap_cons, List.flatMap_nil, List.append_nil, hsym]
  rfl

/-- Witness for C6 at the spec's scenario: BTC with apr 10 on alpha and 15
on beta yields the single opportunity long-Alpha/short-Beta with
netCollection 5. -/
theorem calcArb_orientation_witness :
    0 ≤ (⟨"BTC", "Alpha", "Beta", 10, 15, 5⟩ : ArbitrageOpportunity).netCollection
      ∧ (⟨"BTC", "Alpha", "Beta", 10, 15, 5⟩ : ArbitrageOpportunity).longRate
          ≤ (⟨"BTC", "Alpha", "Beta", 10, 15, 5⟩ : ArbitrageOpportunity).shortRate
      ∧ (⟨"BTC", "Alpha", "Beta", 10, 15, 5⟩ : ArbitrageOpportunity).netCollection
          = (⟨"BTC", "Alpha", "Beta", 10, 15, 5⟩ : ArbitrageOpportunity).shortRate
            - (⟨"BTC", "Alpha", "Beta", 10, 15, 5⟩ : ArbitrageOpportunity).longRate
      ∧ ∃ s eL eS cL cS, s ∈ ["BTC"]
          ∧ arbMatrixA s eL = some cL ∧ arbMatrixA s eS = some cS
          ∧ cL.apr < cS.apr
          ∧ (⟨"BTC", "Alpha", "Beta", 10, 15, 5⟩ : ArbitrageOpportunity).longExchange
              = getExchangeDisplayName eL
          ∧ (⟨"BTC", "Alpha", "Beta", 10, 15, 5⟩ : ArbitrageOpportunity).shortExchange
              = getExchangeDisplayName eS
          ∧ (⟨"BTC", "Alpha", "Beta", 10, 15, 5⟩ : ArbitrageOpportunity).longRate = cL.apr
          ∧ (⟨"BTC", "Alpha", "Beta", 10, 15, 5⟩ : ArbitrageOpportunity).shortRate = cS.apr := by
  refine calcArb_orientation arbMatrixA ["BTC"] ["alpha", "beta"]
    ⟨"BTC", "Alpha", "Beta", 10, 15, 5⟩ ?_
  rw [arbMatrixA_opportunities]
  exact List.mem_singleton.mpr rfl

/-- A two-exchange row (aprs 0 on delta, 2 on hl-gamma) used to witness
C9, exercising the `hl-` display branch. -/
def arbMatrixB : FundingMatrix := fun s e =>
  if s = "ETH" ∧ e = "delta" then some ⟨0, 0, false, false⟩
  else if s = "ETH" ∧ e = "hl-gamma" then some ⟨2, 0, false, false⟩
  else none

lemma arbMatrixB_opportunities :
    calculateArbitrageOpportunities arbMatrixB ["ETH"] ["delta", "hl-gamma"]
      = [⟨"ETH", "Delta", "HL-gamma", 0, 2, 2⟩] := by
  have hDA : getExchangeDisplayName "delta" = "Delta" := by decide
  have hDB : getExchangeDisplayName "hl-gamma" = "HL-gamma" := by decide
  have hA : aprOf (arbMatrixB "ETH") "delta" = 0 := by decide
  have hB : aprOf (arbMatrixB "ETH") "hl-gamma" = 2 := by decide
  have habs : mathAbs ((0:ℚ) - 2) = 2 := by norm_num [mathAbs]
  have hpair : pairOpp "ETH" "delta" "hl-gamma" 0 2
      = some ⟨"ETH", "Delta", "HL-gamma", 0, 2, 2⟩ := by
    simp only [pairOpp, habs]
    rw [if_pos (by norm_num : (1:ℚ)/2 ≤ 2)]
    simp only [if_pos (show (0:ℚ) < 2 by norm_num), hDA, hDB]
  have hsym : symbolOpportunities (arbMatrixB "ETH") "ETH" ["delta", "hl-gamma"]
      = [⟨"ETH", "Delta", "HL-gamma", 0, 2, 2⟩] := by
    rw [symbolOpportunities_pair (arbMatrixB "ETH") "ETH" "delta" "hl-gamma" _ (by decide),
      hA, hB, hpair]
    rfl
  unfold calculateArbitrageOpportunities
  simp only [List.flatMap_cons, List.flatMap_nil, List.append_nil, hsym]
  rfl

/-- Witness for C9: the emitted ETH opportunity has netCollection 2 ≥ 0.5. -/
theorem calcArb_min_spread_witness :
    1/2 ≤ (⟨"ETH", "Delta", "HL-gamma", 0, 2, 2⟩ : ArbitrageOpportunity).netCollection := by
  refine calcArb_min_spread arbMatrixB ["ETH"] ["delta", "hl-gamma"]
    ⟨"ETH", "Delta", "HL-gamma", 0, 2, 2⟩ ?_
  rw [arbMatrixB_opportunities]
  exact List.mem_singleton.mpr rfl

/-- One row returned by the `get_exchange_status()` stored procedure. -/
structure StatusRow where
  exchange : String
  hoursSinceUpdate : ℚ
  lastUpdate : String
  symbolCount : ℕ
deriving DecidableEq

/-- One entry of the route's `exchangeStatus` object. -/
structure ExchangeHealth where
  status : String
  lastUpdate : String
  count : ℕ
deriving DecidableEq

/-- The route function `getExchangeStatus()`: keyed by the *raw* `row.exchange`,
with the `< 2` / `< 6` hour health classification.  (The JS object keeps the
last write per duplicate key; as an association list the entries appear in
row order, which suffices for the key-level claims below.) -/
def getExchangeStatus (rows : List StatusRow) : List (String × ExchangeHealth) :=
  rows.map (fun row =>
    (row.exchange,
      { status := if row.hoursSinceUpdate < (2:ℚ) then ("healthy")
                  else if row.hoursSinceUpdate < (6:ℚ) then ("warning")
                  else ("error")
      , lastUpdate := row.lastUpdate
      , count := row.symbolCount }))

/-- The `responseData` document assembled by the `GET` handler. -/
structure ResponseData where
  matrix : FundingMatrix
  exchanges : List String
  exchangeStatus : List (String × ExchangeHealth)
  oiData : List (String × ℚ)
  stockSymbols : List String
  arbitrageOpportunities : List ArbitrageOpportunity

/-- Assembly of `responseData` in the `GET` handler: the matrix is
annotated in place by `findBestWorstCells` and embedded with its raw
exchange keys, `exchanges` is mapped through `getExchangeDisplayName`,
`exchangeStatus` is embedded as returned (raw keys), and the opportunity
list is computed from the annotated matrix. -/
def buildResponse (matrix : FundingMatrix) (symbols exchanges : List String)
    (statusRows : List StatusRow) (oiData : List (String × ℚ))
    (stockSymbols : List String) : ResponseData :=
  let annotated := findBestWorstCells matrix symbols exchanges
  { matrix := annotated
  , exchanges := exchanges.map getExchangeDisplayName
  , exchangeStatus := getExchangeStatus statusRows
  , oiData := oiData
  , stockSymbols := stockSymbols
  , arbitrageOpportunities := calculateArbitrageOpportunities annotated symbols exchanges }

/-- Status rows used in the C4 counterexample. -/
def statusRowsX : List StatusRow := [⟨"binance", 1, "t0", 5⟩]

/-- Counterexample to claim C4 as stated: in the assembled response the
`exchangeStatus` key and the matrix's exchange key stay the *raw*
`"binance"` — the display transform (which would give `"Binance"`) is
applied to the `exchanges` array and opportunity fields only, not to the
matrix keys or the status keys. -/
theorem buildResponse_raw_keys_counterexample :
    (buildResponse singleCellMatrixA ["BTC"] ["binance"] statusRowsX [] []).exchangeStatus
        = [("binance", ⟨"healthy", "t0", 5⟩)]
      ∧ (buildResponse singleCellMatrixA ["BTC"] ["binance"] statusRowsX [] []).exchanges
        = ["Binance"]
      ∧ getExchangeDisplayName "binance" = "Binance"
      ∧ "binance" ≠ "Binance"
      ∧ ((buildResponse singleCellMatrixA ["BTC"] ["binance"] statusRowsX [] []).matrix
          "BTC" "binance").isSome = true
      ∧ (buildResponse singleCellMatrixA ["BTC"] ["binance"] statusRowsX [] []).matrix
          "BTC" "Binance" = none := by
  decide

/-- Claim C4 (amended) — in the response document the display-name
transform is applied exactly once to each element of the `exchanges`
array and to the long/short exchange fields of every opportunity (each
equals `getExchangeDisplayName` of a raw key from the exchange list),
while the matrix's exchange keys and the `exchangeStatus` keys remain the
raw, untransformed keys. -/
theorem buildResponse_display_transform (matrix : FundingMatrix)
    (symbols exchanges : List String) (statusRows : List StatusRow)
    (oiData : List (String × ℚ)) (stockSymbols : List String) :
    (buildResponse matrix symbols exchanges statusRows oiData stockSymbols).exchanges
        = exchanges.map getExchangeDisplayName
      ∧ (buildResponse matrix symbols exchanges statusRows oiData stockSymbols).exchangeStatus
        = getExchangeStatus statusRows
      ∧ (∀ p ∈ (buildResponse matrix symbols exchanges statusRows oiData
            stockSymbols).exchangeStatus, ∃ r ∈ statusRows, p.1 = r.exchange)
      ∧ (∀ s e, ((buildResponse matrix symbols exchanges statusRows oiData
            stockSymbols).matrix s e).isSome = (matrix s e).isSome)
      ∧ (∀ o ∈ (buildResponse matrix symbols exchanges statusRows oiData
            stockSymbols).arbitrageOpportunities,
          ∃ e1 e2, e1 ∈ exchanges ∧ e2 ∈ exchanges
            ∧ o.longExchange = getExchangeDisplayName e1
            ∧ o.shortExchange = getExchangeDisplayName e2) := by
  refine ⟨rfl, rfl, ?_, ?_, ?_⟩
  · intro p hp
    have hp' : p ∈ getExchangeStatus statusRows := hp
    unfold getExchangeStatus at hp'
    obtain ⟨r, hr, hpr⟩ := List.mem_map.mp hp'
    exact ⟨r, hr, by rw [← hpr]⟩
  · intro s e
    exact findBestWorstCells_isSome matrix symbols exchanges s e
  · intro o ho
    have ho' : o ∈ calculateArbitrageOpportunities
        (findBestWorstCells matrix symbols exchanges) symbols exchanges := ho
    obtain ⟨s, _, hos⟩ := mem_calcArb ho'
    obtain ⟨e1, e2, he1, he2, _, _, hp⟩ := mem_symbolOpportunities hos
    obtain ⟨_, _, _, _, _, hcases⟩ := pairOpp_some_spec hp
    rcases hcases with ⟨hle, hse, _⟩ | ⟨hle, hse, _⟩
    · exact ⟨e1, e2, he1, he2, hle, hse⟩
    · exact ⟨e2, e1, he2, he1, hle, hse⟩

lemma annotated_arbMatrixA_opportunities :
    calculateArbitrageOpportunities
        (findBestWorstCells arbMatrixA ["BTC"] ["alpha", "beta"]) ["BTC"] ["alpha", "beta"]
      = [⟨"BTC", "Alpha", "Beta", 10, 15, 5⟩] := by
  have hDA : getExchangeDisplayName "alpha" = "Alpha" := by decide
  have hDB : getExchangeDisplayName "beta" = "Beta" := by decide
  have hA : aprOf ((findBestWorstCells arbMatrixA ["BTC"] ["alpha", "beta"]) "BTC") "alpha"
      = 10 := by decide
  have hB : aprOf ((findBestWorstCells arbMatrixA ["BTC"] ["alpha", "beta"]) "BTC") "beta"
      = 15 := by decide
  have habs : mathAbs ((10:ℚ) - 15) = 5 := by norm_num [mathAbs]
  have hpair : pairOpp "BTC" "alpha" "beta" 10 15
      = some ⟨"BTC", "Alpha", "Beta", 10, 15, 5⟩ := by
    simp only [pairOpp, habs]
    rw [if_pos (by norm_num : (1:ℚ)/2 ≤ 5)]
    simp only [if_pos (show (10:ℚ) < 15 by norm_num), hDA, hDB]
  have hsym : symbolOpportunities
      ((findBestWorstCells arbMatrixA ["BTC"] ["alpha", "beta"]) "BTC") "BTC"
      ["alpha", "beta"] = [⟨"BTC", "Alpha", "Beta", 10, 15, 5⟩] := by
    rw [symbolOpportunities_pair _ "BTC" "alpha" "beta" _ (by decide), hA, hB, hpair]
    rfl
  unfold calculateArbitrageOpportunities
  simp only [List.flatMap_cons, List.flatMap_nil, List.append_nil, hsym]
  rfl

/-- Witness for the amended C4 on the two-exchange BTC matrix. -/
theorem buildResponse_display_transform_witness :
    (buildResponse arbMatrixA ["BTC"] ["alpha", "beta"] statusRowsX [] []).exchanges
        = ["Alpha", "Beta"]
      ∧ ((buildResponse arbMatrixA ["BTC"] ["alpha", "beta"] statusRowsX [] []).matrix
          "BTC" "alpha").isSome = (arbMatrixA "BTC" "alpha").isSome
      ∧ (∃ e1 e2, e1 ∈ ["alpha", "beta"] ∧ e2 ∈ ["alpha", "beta"]
          ∧ (⟨"BTC", "Alpha", "Beta", 10, 15, 5⟩ : ArbitrageOpportunity).longExchange
              = getExchangeDisplayName e1
          ∧ (⟨"BTC", "Alpha", "Beta", 10, 15, 5⟩ : ArbitrageOpportunity).shortExchange
              = getExchangeDisplayName e2) := by
  have h := buildResponse_display_transform arbMatrixA ["BTC"] ["alpha", "beta"]
    statusRowsX [] []
  refine ⟨by rw [h.1]; decide, h.2.2.2.1 "BTC" "alpha", ?_⟩
  refine h.2.2.2.2 ⟨"BTC", "Alpha", "Beta", 10, 15, 5⟩ ?_
  show _ ∈ calculateArbitrageOpportunities
    (findBestWorstCells arbMatrixA ["BTC"] ["alpha", "beta"]) ["BTC"] ["alpha", "beta"]
  rw [annotated_arbMatrixA_opportunities]
  exact List.mem_singleton.mpr rfl
